import Mathlib

/-!
Shallow embedding of the S&P 500 dashboard ETL pipeline, translated from
`database.py`, `data_loader.py` and `etl.py`.

Modelling conventions:
* The SQLite relations are embedded as lists: `sp500_companies` as a plain list
  of rows (pandas may rebuild it without constraints), `stock_data` as an
  association list keyed by `Symbol` (its PRIMARY KEY keeps keys unique in
  every state SQLite can reach; theorems that need uniqueness carry a
  `Nodup` hypothesis).
* Python floats are modelled as rationals; `round(x, 2)` is rounding to two
  decimals with ties to even, as Python's `round` does.
* Network calls (`yf.download`, `yf.Ticker(...).info`, the Wikipedia scrape)
  are oracles passed as function arguments; a `none` / `.fail` result models a
  raised provider exception, which the source catches.
* `datetime.now().isoformat()` is a string argument: one per fetch category,
  since each fetcher takes its own timestamp.
-/

/-- Floor of a rational, computed as floor-division of numerator by denominator
(the denominator is positive, so this is the true floor). -/
def ratFloor (q : ℚ) : ℤ := Int.fdiv q.num (q.den : ℤ)

/-- Nearest integer with ties going to the even neighbour, matching Python's
built-in `round` on exact values. -/
def roundHalfEven (q : ℚ) : ℤ :=
  let n := ratFloor q
  let frac := q - (n : ℚ)
  if frac < 1/2 then n
  else if 1/2 < frac then n + 1
  else if n % 2 = 0 then n else n + 1

/-- Python `round(x, 2)`. -/
def round2 (q : ℚ) : ℚ := (roundHalfEven (q * 100) : ℚ) / 100

/-- A row of the `sp500_companies` relation (columns Symbol, Security,
"GICS Sector"). -/
structure ConstituentRecord where
  symbol : String
  security : String
  gicsSector : String
deriving DecidableEq

/-- One record appended by `get_performance_data` (columns Symbol,
"YTD Return (%)", last_performance_update). -/
structure PerfRecord where
  symbol : String
  ytdReturn : ℚ
  lastPerformanceUpdate : String
deriving DecidableEq

/-- One record appended by `get_fundamental_data_yfinance`; `none` models a
Python `None`, which `update_fundamentals_db` writes as SQL NULL. -/
structure FundaRecord where
  symbol : String
  company : Option String
  marketCapB : ℚ
  pe : Option ℚ
  lastFundamentalsUpdate : String
deriving DecidableEq

/-- A row of the `stock_data` relation; every column except the key Symbol is
nullable. -/
structure StockRow where
  company : Option String
  marketCapB : Option ℚ
  pe : Option ℚ
  lastFundamentalsUpdate : Option String
  ytdReturn : Option ℚ
  lastPerformanceUpdate : Option String
deriving DecidableEq

/-- A freshly INSERTed row before any column is set: all NULL. -/
def blankRow : StockRow := ⟨none, none, none, none, none, none⟩

/-- The `stock_data` relation, keyed by the Symbol column. -/
abbrev StockTable := List (String × StockRow)

/-- The observable state of `stocks.db`: which tables exist, whether
`sp500_companies` still carries its PRIMARY KEY, and the rows of the two
relations. -/
structure DB where
  sp500Exists : Bool
  sp500HasPK : Bool
  sp500 : List ConstituentRecord
  stockExists : Bool
  stock : StockTable
deriving DecidableEq

/-- A database file that was never written. -/
def freshDB : DB := ⟨false, false, [], false, []⟩

/-- `database.create_tables`: `CREATE TABLE IF NOT EXISTS` for both relations.
It provisions `sp500_companies` with `Symbol TEXT PRIMARY KEY` only when the
table does not already exist; it never touches rows. -/
def create_tables (db : DB) : DB :=
  { db with
    sp500Exists := true
    sp500HasPK := if db.sp500Exists then db.sp500HasPK else true
    stockExists := true }

/-- `etl.update_sp500_list`: pandas `DataFrame.to_sql(..., if_exists="replace",
index=False)` drops the existing `sp500_companies` table and recreates it from
the frame's dtypes — without the PRIMARY KEY declared by `create_tables` — then
inserts every frame row verbatim. -/
def update_sp500_list (recs : List ConstituentRecord) (db : DB) : DB :=
  { db with sp500Exists := true, sp500HasPK := false, sp500 := recs }

/-- One step of the `update_performance_db` UPSERT: `INSERT INTO stock_data
(Symbol, "YTD Return (%)", last_performance_update) VALUES (?, ?, ?) ON
CONFLICT(Symbol) DO UPDATE SET` the same two non-key columns. -/
def upsertPerfRow (sym : String) (y : ℚ) (ts : String) : StockTable → StockTable
  | [] => [(sym, { blankRow with ytdReturn := some y, lastPerformanceUpdate := some ts })]
  | (s, r) :: t =>
    if s = sym then
      (s, { r with ytdReturn := some y, lastPerformanceUpdate := some ts }) :: t
    else (s, r) :: upsertPerfRow sym y ts t

/-- One step of the `update_fundamentals_db` UPSERT: `INSERT INTO stock_data
(Symbol, Company, "Market Cap ($B)", "P/E Ratio", last_fundamentals_update)
... ON CONFLICT(Symbol) DO UPDATE SET` the same four non-key columns. -/
def upsertFundaRow (sym : String) (c : Option String) (m : ℚ) (p : Option ℚ)
    (ts : String) : StockTable → StockTable
  | [] =>
    [(sym,
      { blankRow with
        company := c, marketCapB := some m, pe := p, lastFundamentalsUpdate := some ts })]
  | (s, r) :: t =>
    if s = sym then
      (s,
       { r with
         company := c, marketCapB := some m, pe := p, lastFundamentalsUpdate := some ts }) :: t
    else (s, r) :: upsertFundaRow sym c m p ts t

/-- `etl.update_performance_db`: `executemany` of the performance UPSERT inside
`with conn:`; on any exception the transaction is rolled back and the error
only logged, so `fails = true` leaves the table unchanged. -/
def update_performance_db (fails : Bool) (recs : List PerfRecord)
    (t : StockTable) : StockTable :=
  if fails then t
  else recs.foldl
    (fun acc r => upsertPerfRow r.symbol r.ytdReturn r.lastPerformanceUpdate acc) t

/-- `etl.update_fundamentals_db`: early-returns on an empty frame, otherwise
`executemany` of the fundamentals UPSERT inside `with conn:` with the same
rollback-and-log behaviour on failure. -/
def update_fundamentals_db (fails : Bool) (recs : List FundaRecord)
    (t : StockTable) : StockTable :=
  if recs.isEmpty then t
  else if fails then t
  else recs.foldl
    (fun acc g =>
      upsertFundaRow g.symbol g.company g.marketCapB g.pe g.lastFundamentalsUpdate acc) t

/-- Result of one `yf.download` batch call: `.fail` models a raised provider
exception, `.ok data` the returned frame, as the per-symbol 'Close' series
after `dropna()` (a symbol absent from `data` models a KeyError column). -/
inductive BatchDownload where
  | fail
  | ok (data : List (String × List ℚ))
deriving DecidableEq

/-- Column access `yf_data['Close'][sym]` on the batch frame. -/
def lookupPrices (sym : String) : List (String × List ℚ) → Option (List ℚ)
  | [] => none
  | (s, ps) :: t => if s = sym then some ps else lookupPrices sym t

/-- `range(0, len(symbols), batch_size)` with `batch_size = 100`: the symbol
list in consecutive chunks of 100. -/
def chunks100 (l : List String) : List (List String) :=
  if h : l = [] then [] else l.take 100 :: chunks100 (l.drop 100)
termination_by l.length
decreasing_by
  have h1 : 0 < l.length := List.length_pos.mpr h
  simp only [List.length_drop]
  omega

/-- Body of the per-symbol loop in `get_performance_data`: a missing column is
a KeyError and an empty series is skipped; a first close of `0` raises
ZeroDivisionError, caught by the blanket `except` (in the rationals `x / 0`
would silently be `0`, so the guard is needed for faithfulness). Prices are in
chronological order, as yfinance returns them. -/
def processPerfSymbol (data : List (String × List ℚ)) (sym : String)
    (today : String) : Option PerfRecord :=
  match lookupPrices sym data with
  | none => none
  | some prices =>
    if prices.isEmpty then none
    else
      let startPrice := prices.headD 0
      let endPrice := prices.getLastD 0
      if startPrice = 0 then none
      else some ⟨sym, round2 ((endPrice - startPrice) / startPrice * 100), today⟩

/-- One iteration of the inner `for sym in batch_symbols` loop of
`get_performance_data`: append the symbol's record to `perf_data` when it
succeeds, otherwise leave the accumulator alone. -/
def perfSymStep (data : List (String × List ℚ)) (today : String)
    (acc : List PerfRecord) (sym : String) : List PerfRecord :=
  match processPerfSymbol data sym today with
  | none => acc
  | some r => acc ++ [r]

/-- One iteration of the outer batch loop of `get_performance_data`: a failed
batch download is logged and skipped (`continue`), an empty frame likewise,
and otherwise every symbol of the batch is tried. -/
def perfBatchStep (download : List String → BatchDownload) (today : String)
    (perfData : List PerfRecord) (batch : List String) : List PerfRecord :=
  match download batch with
  | .fail => perfData
  | .ok data =>
    if data.isEmpty then perfData
    else batch.foldl (perfSymStep data today) perfData

/-- `data_loader.get_performance_data`: batches of 100; a failed batch download
is logged and the loop continues; within a successful batch each symbol is
tried, appending to the shared `perf_data` accumulator. -/
def get_performance_data (download : List String → BatchDownload)
    (symbols : List String) (today : String) : List PerfRecord :=
  (chunks100 symbols).foldl (perfBatchStep download today) []

/-- One provider value inside the `ticker.info` dictionary: a number, a string
(yfinance sometimes returns the string placeholder), or Python `None`. -/
inductive PVal where
  | num (q : ℚ)
  | str (s : String)
  | null
deriving DecidableEq

/-- The keys of `ticker.info` the loader reads; `none` on a field models the
key being absent from the dictionary (distinct from present-with-`None`,
which `dict.get` does NOT replace by its default). -/
structure TickerInfo where
  longName : Option String
  marketCap : Option PVal
  trailingPE : Option PVal
  forwardPE : Option PVal
deriving DecidableEq

/-- Python truthiness of a provider value (`if market_cap else 0`). -/
def pvalTruthy : PVal → Bool
  | .num q => decide (q ≠ 0)
  | .str s => decide (s ≠ "")
  | .null => false

/-- `float(v)`: succeeds on a number; raises on `None`; raises on the
non-numeric strings this provider produces (numeric strings do not occur in
the `marketCap` field, the only place `float` is applied). -/
def pvalToFloat : PVal → Option ℚ
  | .num q => some q
  | .str _ => none
  | .null => none

/-- Body of the per-symbol loop in `get_fundamental_data_yfinance`, given a
successfully fetched `ticker.info`; returns `none` when the market-cap
`float(...)` conversion raises (the blanket `except` then skips the symbol). -/
def fetchFundaSymbol (sym : String) (info : TickerInfo) (today : String) :
    Option FundaRecord :=
  let marketCap := info.marketCap.getD (.num 0)
  let peRaw := match info.trailingPE with
    | some v => some v
    | none => info.forwardPE
  let peSel : Option ℚ := match peRaw with
    | some (.num q) => some q
    | _ => none
  let mcapB : Option ℚ :=
    if pvalTruthy marketCap then
      (pvalToFloat marketCap).map (fun x => round2 (x / 1000000000))
    else some 0
  match mcapB with
  | none => none
  | some m => some ⟨sym, info.longName, m, peSel, today⟩

/-- `data_loader.get_fundamental_data_yfinance`: one `ticker.info` request per
symbol; any per-symbol exception (`info oracle = none`, or a raising market-cap
conversion) is logged and the symbol skipped. -/
def get_fundamental_data_yfinance (info : String → Option TickerInfo)
    (symbols : List String) (today : String) : List FundaRecord :=
  symbols.filterMap (fun sym =>
    match info sym with
    | none => none
    | some bag => fetchFundaSymbol sym bag today)

/-- `etl.run_etl`: connect, provision schema, fetch-and-replace constituents
(aborting on an empty scrape), then performance fetch + upsert and fundamentals
fetch + upsert, each guarded by an emptiness check. The returned Bool is true
iff the run reached the final completion log rather than an early `return`. -/
def run_etl (connOk : Bool) (sp500 : List ConstituentRecord)
    (download : List String → BatchDownload) (info : String → Option TickerInfo)
    (todayPerf todayFunda : String) (perfFails fundaFails : Bool)
    (db : DB) : DB × Bool :=
  if !connOk then (db, false)
  else
    let db1 := create_tables db
    if sp500.isEmpty then (db1, false)
    else
      let db2 := update_sp500_list sp500 db1
      let allSymbols := sp500.map (·.symbol)
      let perf := get_performance_data download allSymbols todayPerf
      let db3 := if perf.isEmpty then db2
                 else { db2 with stock := update_performance_db perfFails perf db2.stock }
      let funda := get_fundamental_data_yfinance info allSymbols todayFunda
      let db4 := if funda.isEmpty then db3
                 else { db3 with stock := update_fundamentals_db fundaFails funda db3.stock }
      (db4, true)

/-- `SELECT * FROM stock_data WHERE Symbol = sym` (at most one row thanks to
the PRIMARY KEY). -/
def lookupRow (sym : String) : StockTable → Option StockRow
  | [] => none
  | (s, r) :: t => if s = sym then some r else lookupRow sym t

/-- The Symbol column of the `stock_data` relation. -/
def keysOf (t : StockTable) : List String := t.map Prod.fst

/-- The column updates performed by the performance UPSERT on an existing row. -/
def perfPatch (y : ℚ) (ts : String) (r : StockRow) : StockRow :=
  { r with ytdReturn := some y, lastPerformanceUpdate := some ts }

/-- The column updates performed by the fundamentals UPSERT on an existing row. -/
def fundaPatch (c : Option String) (m : ℚ) (p : Option ℚ) (ts : String)
    (r : StockRow) : StockRow :=
  { r with
    company := c, marketCapB := some m, pe := p, lastFundamentalsUpdate := some ts }

/-- The behaviour claim C4 ascribes to `get_performance_data`, written from the
claim's words: per batch, a failed or empty download contributes nothing and
the next batch is still processed; per symbol of a successful batch, exactly
the symbols that succeed contribute their record. Stated over the chunked
symbol list. -/
def perfSpecBatch (download : List String → BatchDownload) (today : String)
    (batch : List String) : List PerfRecord :=
  match download batch with
  | .fail => []
  | .ok data =>
    if data.isEmpty then []
    else batch.filterMap (fun sym => processPerfSymbol data sym today)

/-- The records of the symbols that succeeded, batch by batch (claim C4's
description, continued). -/
def get_performance_data_spec (download : List String → BatchDownload)
    (today : String) : List (List String) → List PerfRecord
  | [] => []
  | batch :: rest =>
    perfSpecBatch download today batch ++ get_performance_data_spec download today rest

/-- The P/E selection policy exactly as claim C3 states it: the trailing P/E
when that is numeric, otherwise the forward P/E when that is numeric,
otherwise absent. -/
def specPESelect (info : TickerInfo) : Option ℚ :=
  match info.trailingPE with
  | some (.num q) => some q
  | _ =>
    match info.forwardPE with
    | some (.num q) => some q
    | _ => none

/-- A `stock_data` row with the two timestamp columns erased; claim C2
compares stores up to these. -/
structure SRow where
  company : Option String
  mcap : Option ℚ
  pe : Option ℚ
  ytd : Option ℚ
deriving DecidableEq

/-- The timestamp-erased view of a blank row. -/
def sBlank : SRow := ⟨none, none, none, none⟩

/-- Erase the two timestamp columns of a row. -/
def stripRow (r : StockRow) : SRow := ⟨r.company, r.marketCapB, r.pe, r.ytdReturn⟩

/-- The `stock_data` relation with timestamp columns erased. -/
abbrev STable := List (String × SRow)

/-- Erase the timestamp columns of every row. -/
def stripTable (t : StockTable) : STable := t.map (fun p => (p.1, stripRow p.2))

/-- Timestamp-erased effect of the performance UPSERT on one row. -/
def sSetPerf (y : ℚ) (r : SRow) : SRow := { r with ytd := some y }

/-- Timestamp-erased effect of the fundamentals UPSERT on one row. -/
def sSetFunda (c : Option String) (m : ℚ) (p : Option ℚ) (r : SRow) : SRow :=
  { r with company := c, mcap := some m, pe := p }

/-- Timestamp-erased performance UPSERT. -/
def sUpsertPerf (sym : String) (y : ℚ) : STable → STable
  | [] => [(sym, sSetPerf y sBlank)]
  | (s, r) :: t =>
    if s = sym then (s, sSetPerf y r) :: t else (s, r) :: sUpsertPerf sym y t

/-- Timestamp-erased fundamentals UPSERT. -/
def sUpsertFunda (sym : String) (c : Option String) (m : ℚ) (p : Option ℚ) :
    STable → STable
  | [] => [(sym, sSetFunda c m p sBlank)]
  | (s, r) :: t =>
    if s = sym then (s, sSetFunda c m p r) :: t
    else (s, r) :: sUpsertFunda sym c m p t

/-- Fold of timestamp-erased performance records over a table. -/
def sPerfFold (ps : List (String × ℚ)) (x : STable) : STable :=
  ps.foldl (fun a p => sUpsertPerf p.1 p.2 a) x

/-- Fold of timestamp-erased fundamentals records over a table. -/
def sFundaFold (gs : List (String × Option String × ℚ × Option ℚ)) (x : STable) :
    STable :=
  gs.foldl (fun a g => sUpsertFunda g.1 g.2.1 g.2.2.1 g.2.2.2 a) x

/-- Key lookup in the timestamp-erased table. -/
def lookupS (sym : String) : STable → Option SRow
  | [] => none
  | (s, r) :: t => if s = sym then some r else lookupS sym t

/-- Symbol column of the timestamp-erased table. -/
def keysS (x : STable) : List String := x.map Prod.fst

/-- Value written for a symbol by a list of performance records (later records
overwrite earlier ones). -/
def lastPerfVal (ps : List (String × ℚ)) (sym : String) : Option ℚ :=
  ps.foldl (fun a p => if p.1 = sym then some p.2 else a) none

/-- Values written for a symbol by a list of fundamentals records. -/
def lastFundaVal (gs : List (String × Option String × ℚ × Option ℚ))
    (sym : String) : Option (Option String × ℚ × Option ℚ) :=
  gs.foldl (fun a g => if g.1 = sym then some g.2 else a) none

/-- Timestamp-erased content of a performance record. -/
def perfPair (r : PerfRecord) : String × ℚ := (r.symbol, r.ytdReturn)

/-- Timestamp-erased content of a fundamentals record. -/
def fundaTuple (g : FundaRecord) : String × Option String × ℚ × Option ℚ :=
  (g.symbol, g.company, g.marketCapB, g.pe)

/-- Effect on one symbol's (timestamp-erased) row of a performance fold, as a
function of the value the fold writes for that symbol. -/
def applyPerfOpt (pv : Option ℚ) (o : Option SRow) : Option SRow :=
  match pv with
  | none => o
  | some y => some (sSetPerf y (o.getD sBlank))

/-- Effect on one symbol's (timestamp-erased) row of a fundamentals fold. -/
def applyFundaOpt (fv : Option (Option String × ℚ × Option ℚ)) (o : Option SRow) :
    Option SRow :=
  match fv with
  | none => o
  | some f => some (sSetFunda f.1 f.2.1 f.2.2 (o.getD sBlank))

theorem ratFloor_intCast (m : ℤ) : ratFloor ((m : ℚ)) = m := by
  simp [ratFloor, Int.fdiv_one]

theorem roundHalfEven_intCast (m : ℤ) : roundHalfEven ((m : ℚ)) = m := by
  simp only [roundHalfEven, ratFloor_intCast, sub_self]
  norm_num

theorem round2_intCast (m : ℤ) : round2 ((m : ℚ)) = (m : ℚ) := by
  have h : ((m : ℚ)) * 100 = ((m * 100 : ℤ) : ℚ) := by push_cast; ring
  simp only [round2, h, roundHalfEven_intCast]
  push_cast
  ring

theorem round2_eq_self (q : ℚ) (h : q.den = 1) : round2 q = q := by
  have hq : ((q.num : ℚ)) = q := by
    have h2 := Rat.num_div_den q
    rwa [h, Nat.cast_one, div_one] at h2
  calc round2 q = round2 ((q.num : ℚ)) := by rw [hq]
    _ = (q.num : ℚ) := round2_intCast q.num
    _ = q := hq

theorem chunks100_short (l : List String) (h0 : l ≠ []) (h : l.length ≤ 100) :
    chunks100 l = [l] := by
  rw [chunks100]
  simp [h0, List.take_of_length_le h, List.drop_eq_nil_of_le h, chunks100]

/-- C6: `update_sp500_list` replaces the whole constituent relation with the
input records (pandas drop-and-reload), so no symbol outside the new set
survives in the relation. -/
theorem constituents_replace_semantics (recs : List ConstituentRecord) (db : DB) :
    (update_sp500_list recs db).sp500 = recs ∧
    ∀ s, s ∉ recs.map (·.symbol) →
      s ∉ ((update_sp500_list recs db).sp500.map (·.symbol)) := by
  refine ⟨rfl, ?_⟩
  intro s hs
  simpa [update_sp500_list] using hs

theorem constituents_replace_semantics_witness :
    (update_sp500_list [⟨"AAA", "Aco", "Tech"⟩] freshDB).sp500
      = [⟨"AAA", "Aco", "Tech"⟩] ∧
    "ZZZ" ∉ ((update_sp500_list [⟨"AAA", "Aco", "Tech"⟩] freshDB).sp500.map (·.symbol)) := by
  have h := constituents_replace_semantics [⟨"AAA", "Aco", "Tech"⟩] freshDB
  exact ⟨h.1, h.2 "ZZZ" (by decide)⟩

/-- C8: calling either metrics upsert with an empty record set leaves every row
of `stock_data` unchanged and does not abort — `update_fundamentals_db`
early-returns, and `update_performance_db` runs `executemany` over zero rows. -/
theorem empty_upsert_is_noop (f1 f2 : Bool) (t : StockTable) :
    update_performance_db f1 [] t = t ∧ update_fundamentals_db f2 [] t = t := by
  constructor
  · cases f1 <;> rfl
  · rfl

/-- C10: `create_tables` provisions `sp500_companies` with a PRIMARY KEY on a
fresh database, but `update_sp500_list` rebuilds the relation without it, and
an input with two records for the same symbol stores both rows. -/
theorem sp500_pk_not_enforced (r1 r2 : ConstituentRecord) (db : DB)
    (h : r1.symbol = r2.symbol) :
    (update_sp500_list [r1, r2] db).sp500HasPK = false ∧
    (update_sp500_list [r1, r2] db).sp500 = [r1, r2] ∧
    (((update_sp500_list [r1, r2] db).sp500.map (·.symbol)).count r1.symbol = 2) ∧
    (create_tables freshDB).sp500HasPK = true := by
  refine ⟨rfl, rfl, ?_, rfl⟩
  simp [update_sp500_list, h, List.count_cons]

theorem sp500_pk_not_enforced_witness :
    (update_sp500_list [⟨"AAA", "a", "s1"⟩, ⟨"AAA", "b", "s2"⟩] freshDB).sp500HasPK
      = false ∧
    (update_sp500_list [⟨"AAA", "a", "s1"⟩, ⟨"AAA", "b", "s2"⟩] freshDB).sp500
      = [⟨"AAA", "a", "s1"⟩, ⟨"AAA", "b", "s2"⟩] ∧
    (((update_sp500_list [⟨"AAA", "a", "s1"⟩, ⟨"AAA", "b", "s2"⟩] freshDB).sp500.map
        (·.symbol)).count "AAA" = 2) ∧
    (create_tables freshDB).sp500HasPK = true :=
  sp500_pk_not_enforced ⟨"AAA", "a", "s1"⟩ ⟨"AAA", "b", "s2"⟩ freshDB rfl

/-- C3 counterexample: a `ticker.info` bag whose trailing-P/E key is present
with the non-numeric string "None" and whose forward P/E is the number 10.
`dict.get("trailingPE", ...)` returns the stored string, so the code records
NULL, while the claim's policy (fall back whenever trailing is not numeric)
records 10. -/
theorem pe_fallback_counterexample :
    (get_fundamental_data_yfinance
        (fun _ => some ⟨some "X", some (.num 2000000000), some (.str "None"), some (.num 10)⟩)
        ["AAA"] "t").map (·.pe) = [none] ∧
    specPESelect ⟨some "X", some (.num 2000000000), some (.str "None"), some (.num 10)⟩
      = some 10 ∧
    (none : Option ℚ) ≠ some 10 := by
  refine ⟨?_, rfl, by simp⟩
  simp [get_fundamental_data_yfinance, fetchFundaSymbol, pvalTruthy, pvalToFloat]

/-- C3 amended: for a symbol whose info fetch succeeds (and whose record is
produced), the recorded P/E is the trailing value when the trailing key is
present and numeric; NULL when the trailing key is present but non-numeric,
regardless of the forward P/E; the forward value when the trailing key is
absent and the forward value is numeric; and NULL otherwise — never a zero or
string placeholder. -/
theorem pe_policy_recorded (sym : String) (bag : TickerInfo) (today : String)
    (r : FundaRecord) (h : fetchFundaSymbol sym bag today = some r) :
    (∀ q, bag.trailingPE = some (.num q) → r.pe = some q) ∧
    (∀ v, bag.trailingPE = some v → (∀ q, v ≠ PVal.num q) → r.pe = none) ∧
    (bag.trailingPE = none → ∀ q, bag.forwardPE = some (.num q) → r.pe = some q) ∧
    (bag.trailingPE = none → (∀ q, bag.forwardPE ≠ some (PVal.num q)) → r.pe = none) := by
  have hpe : r.pe =
      (match (match bag.trailingPE with | some v => some v | none => bag.forwardPE) with
       | some (.num q) => some q
       | _ => none) := by
    simp only [fetchFundaSymbol] at h
    split at h
    · exact absurd h (by simp)
    · cases h
      rfl
  refine ⟨?_, ?_, ?_, ?_⟩
  · intro q hq
    rw [hpe, hq]
  · intro v hv hnum
    rw [hpe, hv]
    cases v with
    | num q => exact absurd rfl (hnum q)
    | str s => rfl
    | null => rfl
  · intro ht q hf
    rw [hpe, ht, hf]
  · intro ht hf
    rw [hpe, ht]
    cases hfa : bag.forwardPE with
    | none => rfl
    | some v =>
      cases v with
      | num q => exact absurd hfa (hf q)
      | str s => rfl
      | null => rfl

theorem pe_policy_recorded_witness :
    fetchFundaSymbol "AAA" ⟨some "X", some (.num 1000000000), some (.num 5), none⟩ "t"
      = some ⟨"AAA", some "X", 1, some 5, "t"⟩ ∧
    (⟨"AAA", some "X", 1, some 5, "t"⟩ : FundaRecord).pe = some 5 := by
  have heval : fetchFundaSymbol "AAA"
      ⟨some "X", some (.num 1000000000), some (.num 5), none⟩ "t"
      = some ⟨"AAA", some "X", 1, some 5, "t"⟩ := by
    simp [fetchFundaSymbol, pvalTruthy, pvalToFloat]
    rw [round2_eq_self _ (by decide)]
  exact ⟨heval,
    (pe_policy_recorded "AAA" ⟨some "X", some (.num 1000000000), some (.num 5), none⟩
      "t" ⟨"AAA", some "X", 1, some 5, "t"⟩ heval).1 5 rfl⟩

/-- C7: for a symbol in a successful batch whose closing-price series is
non-empty (and whose first close is nonzero, so the division does not raise),
the recorded YTD return is `round2` of `(last - first) / first * 100`, first
and last taken in the chronological order of the fetched series. -/
theorem ytd_return_formula (sym : String) (p : ℚ) (ps : List ℚ) (today : String)
    (download : List String → BatchDownload)
    (hp : p ≠ 0) (hdl : download [sym] = BatchDownload.ok [(sym, p :: ps)]) :
    get_performance_data download [sym] today
      = [⟨sym, round2 (((p :: ps).getLastD 0 - p) / p * 100), today⟩] ∧
    processPerfSymbol [(sym, p :: ps)] sym today
      = some ⟨sym, round2 (((p :: ps).getLastD 0 - p) / p * 100), today⟩ := by
  have h1 : chunks100 [sym] = [[sym]] := chunks100_short _ (by simp) (by simp)
  have h2 : processPerfSymbol [(sym, p :: ps)] sym today
      = some ⟨sym, round2 (((p :: ps).getLastD 0 - p) / p * 100), today⟩ := by
    simp [processPerfSymbol, lookupPrices, hp]
  refine ⟨?_, h2⟩
  simp [get_performance_data, h1, perfBatchStep, perfSymStep, hdl, h2]

theorem ytd_return_formula_witness :
    get_performance_data (fun _ => BatchDownload.ok [("AAA", [100, 110, 90])]) ["AAA"] "t"
      = [⟨"AAA", -10, "t"⟩] ∧ (100 : ℚ) ≠ 0 := by
  have h := (ytd_return_formula "AAA" 100 [110, 90] "t"
    (fun _ => BatchDownload.ok [("AAA", [100, 110, 90])]) (by norm_num) rfl).1
  rw [h]
  refine ⟨?_, by norm_num⟩
  rw [show (List.getLastD [(100 : ℚ), 110, 90] 0 - 100) / 100 * 100 = (-10 : ℚ) by
    simp; norm_num]
  rw [round2_eq_self _ (by decide)]

theorem chunks100_flatten (l : List String) : (chunks100 l).flatten = l := by
  induction l using chunks100.induct with
  | case1 => rw [chunks100]; simp
  | case2 l hne ih =>
    rw [chunks100]
    simp only [hne, dite_false, List.flatten_cons, ih, List.take_append_drop]

theorem processPerfSymbol_symbol (data : List (String × List ℚ)) (sym : String)
    (today : String) (r : PerfRecord) (h : processPerfSymbol data sym today = some r) :
    r.symbol = sym := by
  simp only [processPerfSymbol] at h
  split at h
  · exact absurd h (by simp)
  · split at h
    · exact absurd h (by simp)
    · split at h
      · exact absurd h (by simp)
      · cases h; rfl

theorem perf_inner_foldl (data : List (String × List ℚ)) (today : String)
    (batch : List String) (acc : List PerfRecord) :
    batch.foldl (perfSymStep data today) acc
      = acc ++ batch.filterMap (fun sym => processPerfSymbol data sym today) := by
  induction batch generalizing acc with
  | nil => simp
  | cons s bs ih =>
    rw [List.foldl_cons, List.filterMap_cons]
    cases h : processPerfSymbol data s today with
    | none => rw [show perfSymStep data today acc s = acc by simp [perfSymStep, h], ih]
    | some r =>
      rw [show perfSymStep data today acc s = acc ++ [r] by simp [perfSymStep, h], ih]
      simp

theorem perf_outer_foldl (download : List String → BatchDownload) (today : String)
    (cs : List (List String)) (acc : List PerfRecord) :
    cs.foldl (perfBatchStep download today) acc
      = acc ++ get_performance_data_spec download today cs := by
  induction cs generalizing acc with
  | nil => simp [get_performance_data_spec]
  | cons b bs ih =>
    rw [List.foldl_cons, get_performance_data_spec, ih]
    have hb : perfBatchStep download today acc b = acc ++ perfSpecBatch download today b := by
      cases hdl : download b with
      | fail => simp [perfBatchStep, perfSpecBatch, hdl]
      | ok data =>
        by_cases hd : data.isEmpty
        · simp [perfBatchStep, perfSpecBatch, hdl, hd]
        · simp [perfBatchStep, perfSpecBatch, hdl, hd, perf_inner_foldl]
    rw [hb, List.append_assoc]

theorem perf_impl_eq_spec (download : List String → BatchDownload)
    (symbols : List String) (today : String) :
    get_performance_data download symbols today
      = get_performance_data_spec download today (chunks100 symbols) := by
  simpa [get_performance_data] using
    perf_outer_foldl download today (chunks100 symbols) []

theorem perf_spec_mem (download : List String → BatchDownload) (today : String)
    (cs : List (List String)) (r : PerfRecord)
    (h : r ∈ get_performance_data_spec download today cs) :
    ∃ b ∈ cs, r.symbol ∈ b := by
  induction cs with
  | nil => simp [get_performance_data_spec] at h
  | cons b bs ih =>
    rw [get_performance_data_spec, List.mem_append] at h
    rcases h with h | h
    · refine ⟨b, by simp, ?_⟩
      cases hdl : download b with
      | fail => rw [perfSpecBatch, hdl] at h; simp at h
      | ok data =>
        simp only [perfSpecBatch, hdl] at h
        by_cases hd : data.isEmpty
        · rw [if_pos hd] at h; simp at h
        · rw [if_neg hd, List.mem_filterMap] at h
          obtain ⟨sym, hsym, hps⟩ := h
          rwa [processPerfSymbol_symbol data sym today r hps]
    · obtain ⟨c, hc, hm⟩ := ih h
      exact ⟨c, by simp [hc], hm⟩

/-- C4: `get_performance_data` is total over provider failures - a failed or
empty batch contributes nothing while later batches still run, a failed symbol
is skipped, and the output is exactly the records of the symbols that
succeeded (so possibly empty), all of them drawn from the input list. -/
theorem perf_fetch_isolates_failures (download : List String → BatchDownload)
    (symbols : List String) (today : String) :
    get_performance_data download symbols today
      = get_performance_data_spec download today (chunks100 symbols) ∧
    ∀ r ∈ get_performance_data download symbols today, r.symbol ∈ symbols := by
  refine ⟨perf_impl_eq_spec download symbols today, ?_⟩
  intro r hr
  rw [perf_impl_eq_spec download symbols today] at hr
  obtain ⟨b, hb, hm⟩ := perf_spec_mem download today (chunks100 symbols) r hr
  rw [← chunks100_flatten symbols]
  exact List.mem_flatten.mpr ⟨b, hb, hm⟩

theorem perf_fetch_isolates_failures_witness :
    get_performance_data (fun _ => BatchDownload.fail) ["AAA"] "t"
      = get_performance_data_spec (fun _ => BatchDownload.fail) "t" (chunks100 ["AAA"]) ∧
    ("AAA" : String) ∈ (["AAA"] : List String) := by
  refine ⟨(perf_fetch_isolates_failures (fun _ => BatchDownload.fail) ["AAA"] "t").1, ?_⟩
  have heval : get_performance_data (fun _ => BatchDownload.ok [("AAA", [1])]) ["AAA"] "t"
      = [⟨"AAA", 0, "t"⟩] := by
    have h1 : chunks100 ["AAA"] = [["AAA"]] := chunks100_short _ (by simp) (by simp)
    simp [get_performance_data, h1, perfBatchStep, perfSymStep, processPerfSymbol,
      lookupPrices]
    rw [round2_eq_self _ (by decide)]
  exact (perf_fetch_isolates_failures (fun _ => BatchDownload.ok [("AAA", [1])])
      ["AAA"] "t").2 ⟨"AAA", 0, "t"⟩ (by rw [heval]; exact List.mem_singleton.mpr rfl)

theorem lookupRow_upsertPerf (sym : String) (y : ℚ) (ts : String) (a : String)
    (t : StockTable) :
    lookupRow a (upsertPerfRow sym y ts t)
      = if a = sym then some (perfPatch y ts ((lookupRow sym t).getD blankRow))
        else lookupRow a t := by
  induction t with
  | nil =>
    by_cases h : a = sym
    · subst h; simp [upsertPerfRow, lookupRow, perfPatch]
    · have h2 : ¬ sym = a := fun hh => h hh.symm
      simp [upsertPerfRow, lookupRow, h, h2]
  | cons p t ih =>
    obtain ⟨s, r⟩ := p
    by_cases hs : s = sym
    · subst hs
      by_cases ha : s = a
      · subst ha; simp [upsertPerfRow, lookupRow, perfPatch]
      · have ha2 : ¬ a = s := fun hh => ha hh.symm
        simp [upsertPerfRow, lookupRow, ha, ha2]
    · by_cases hsa : s = a
      · subst hsa
        have hs2 : ¬ s = sym := hs
        simp [upsertPerfRow, lookupRow, hs2]
      · simp [upsertPerfRow, lookupRow, hs, hsa, ih]

theorem lookupRow_upsertFunda (sym : String) (c : Option String) (m : ℚ)
    (pv : Option ℚ) (ts : String) (a : String) (t : StockTable) :
    lookupRow a (upsertFundaRow sym c m pv ts t)
      = if a = sym then some (fundaPatch c m pv ts ((lookupRow sym t).getD blankRow))
        else lookupRow a t := by
  induction t with
  | nil =>
    by_cases h : a = sym
    · subst h; simp [upsertFundaRow, lookupRow, fundaPatch]
    · have h2 : ¬ sym = a := fun hh => h hh.symm
      simp [upsertFundaRow, lookupRow, h, h2]
  | cons p t ih =>
    obtain ⟨s, r⟩ := p
    by_cases hs : s = sym
    · subst hs
      by_cases ha : s = a
      · subst ha; simp [upsertFundaRow, lookupRow, fundaPatch]
      · have ha2 : ¬ a = s := fun hh => ha hh.symm
        simp [upsertFundaRow, lookupRow, ha, ha2]
    · by_cases hsa : s = a
      · subst hsa
        have hs2 : ¬ s = sym := hs
        simp [upsertFundaRow, lookupRow, hs2]
      · simp [upsertFundaRow, lookupRow, hs, hsa, ih]

theorem keysOf_cons (s : String) (r : StockRow) (t : StockTable) :
    keysOf ((s, r) :: t) = s :: keysOf t := rfl

theorem keysOf_upsertPerf (sym : String) (y : ℚ) (ts : String) (t : StockTable) :
    keysOf (upsertPerfRow sym y ts t)
      = if sym ∈ keysOf t then keysOf t else keysOf t ++ [sym] := by
  induction t with
  | nil => simp [upsertPerfRow, keysOf]
  | cons p t ih =>
    obtain ⟨s, r⟩ := p
    by_cases hs : s = sym
    · subst hs
      simp only [upsertPerfRow, if_pos rfl, keysOf_cons]
      simp [keysOf_cons]
    · have hns : ¬ sym = s := fun hh => hs hh.symm
      simp only [upsertPerfRow, if_neg hs, keysOf_cons, ih]
      by_cases hm : sym ∈ keysOf t
      · simp [hm, hns]
      · simp [hm, hns]

theorem keysOf_upsertFunda (sym : String) (c : Option String) (m : ℚ)
    (pv : Option ℚ) (ts : String) (t : StockTable) :
    keysOf (upsertFundaRow sym c m pv ts t)
      = if sym ∈ keysOf t then keysOf t else keysOf t ++ [sym] := by
  induction t with
  | nil => simp [upsertFundaRow, keysOf]
  | cons p t ih =>
    obtain ⟨s, r⟩ := p
    by_cases hs : s = sym
    · subst hs
      simp only [upsertFundaRow, if_pos rfl, keysOf_cons]
      simp [keysOf_cons]
    · have hns : ¬ sym = s := fun hh => hs hh.symm
      simp only [upsertFundaRow, if_neg hs, keysOf_cons, ih]
      by_cases hm : sym ∈ keysOf t
      · simp [hm, hns]
      · simp [hm, hns]

theorem mem_keysOf_upsertPerf (sym : String) (y : ℚ) (ts : String) (a : String)
    (t : StockTable) (h : a ∈ keysOf t ∨ a = sym) :
    a ∈ keysOf (upsertPerfRow sym y ts t) := by
  rw [keysOf_upsertPerf]
  by_cases hm : sym ∈ keysOf t
  · rcases h with h | h
    · simp [hm, h]
    · simp [hm, h ▸ hm]
  · rcases h with h | h
    · simp [hm, h]
    · simp [hm, h]

theorem mem_keysOf_upsertFunda (sym : String) (c : Option String) (m : ℚ)
    (pv : Option ℚ) (ts : String) (a : String) (t : StockTable)
    (h : a ∈ keysOf t ∨ a = sym) :
    a ∈ keysOf (upsertFundaRow sym c m pv ts t) := by
  rw [keysOf_upsertFunda]
  by_cases hm : sym ∈ keysOf t
  · rcases h with h | h
    · simp [hm, h]
    · simp [hm, h ▸ hm]
  · rcases h with h | h
    · simp [hm, h]
    · simp [hm, h]

theorem nodup_keysOf_upsertPerf (sym : String) (y : ℚ) (ts : String)
    (t : StockTable) (h : (keysOf t).Nodup) :
    (keysOf (upsertPerfRow sym y ts t)).Nodup := by
  rw [keysOf_upsertPerf]
  by_cases hm : sym ∈ keysOf t
  · simpa [hm] using h
  · simp only [hm, if_false]
    rw [List.nodup_append]
    refine ⟨h, by simp, ?_⟩
    intro a ha hb
    simp only [List.mem_singleton] at hb
    subst hb
    exact hm ha

theorem nodup_keysOf_upsertFunda (sym : String) (c : Option String) (m : ℚ)
    (pv : Option ℚ) (ts : String) (t : StockTable) (h : (keysOf t).Nodup) :
    (keysOf (upsertFundaRow sym c m pv ts t)).Nodup := by
  rw [keysOf_upsertFunda]
  by_cases hm : sym ∈ keysOf t
  · simpa [hm] using h
  · simp only [hm, if_false]
    rw [List.nodup_append]
    refine ⟨h, by simp, ?_⟩
    intro a ha hb
    simp only [List.mem_singleton] at hb
    subst hb
    exact hm ha

/-- C1: running the performance upsert and the fundamentals upsert for one
symbol, in either order, leaves a single merged row carrying both categories'
values; a performance upsert rewrites only the YTD-return and
last-performance-update columns of an existing row and a fundamentals upsert
rewrites only the Company, market-cap, P/E and last-fundamentals-update
columns; rows of other symbols are untouched. -/
theorem upsert_column_scoped (sym : String) (y : ℚ) (tsP : String)
    (c : Option String) (m : ℚ) (pv : Option ℚ) (tsF : String) (t : StockTable)
    (hnd : (keysOf t).Nodup) :
    lookupRow sym (update_performance_db false [⟨sym, y, tsP⟩]
        (update_fundamentals_db false [⟨sym, c, m, pv, tsF⟩] t))
      = some ⟨c, some m, pv, some tsF, some y, some tsP⟩ ∧
    lookupRow sym (update_fundamentals_db false [⟨sym, c, m, pv, tsF⟩]
        (update_performance_db false [⟨sym, y, tsP⟩] t))
      = some ⟨c, some m, pv, some tsF, some y, some tsP⟩ ∧
    (keysOf (update_performance_db false [⟨sym, y, tsP⟩]
        (update_fundamentals_db false [⟨sym, c, m, pv, tsF⟩] t))).count sym = 1 ∧
    (keysOf (update_fundamentals_db false [⟨sym, c, m, pv, tsF⟩]
        (update_performance_db false [⟨sym, y, tsP⟩] t))).count sym = 1 ∧
    (∀ a, a ≠ sym →
      lookupRow a (update_performance_db false [⟨sym, y, tsP⟩] t) = lookupRow a t ∧
      lookupRow a (update_fundamentals_db false [⟨sym, c, m, pv, tsF⟩] t)
        = lookupRow a t) ∧
    ∀ r, lookupRow sym t = some r →
      lookupRow sym (update_performance_db false [⟨sym, y, tsP⟩] t)
        = some (perfPatch y tsP r) ∧
      lookupRow sym (update_fundamentals_db false [⟨sym, c, m, pv, tsF⟩] t)
        = some (fundaPatch c m pv tsF r) := by
  have hP : ∀ u, update_performance_db false [⟨sym, y, tsP⟩] u
      = upsertPerfRow sym y tsP u := fun u => rfl
  have hF : ∀ u, update_fundamentals_db false [⟨sym, c, m, pv, tsF⟩] u
      = upsertFundaRow sym c m pv tsF u := fun u => rfl
  refine ⟨?_, ?_, ?_, ?_, ?_, ?_⟩
  · rw [hP, hF, lookupRow_upsertPerf, if_pos rfl, lookupRow_upsertFunda, if_pos rfl]
    rfl
  · rw [hF, hP, lookupRow_upsertFunda, if_pos rfl, lookupRow_upsertPerf, if_pos rfl]
    rfl
  · rw [hP, hF]
    have h1 := nodup_keysOf_upsertFunda sym c m pv tsF t hnd
    have h2 := nodup_keysOf_upsertPerf sym y tsP _ h1
    exact List.count_eq_one_of_mem h2
      (mem_keysOf_upsertPerf sym y tsP sym _ (Or.inr rfl))
  · rw [hP, hF]
    have h1 := nodup_keysOf_upsertPerf sym y tsP t hnd
    have h2 := nodup_keysOf_upsertFunda sym c m pv tsF _ h1
    exact List.count_eq_one_of_mem h2
      (mem_keysOf_upsertFunda sym c m pv tsF sym _ (Or.inr rfl))
  · intro a ha
    exact ⟨by rw [hP, lookupRow_upsertPerf, if_neg ha],
      by rw [hF, lookupRow_upsertFunda, if_neg ha]⟩
  · intro r hr
    exact ⟨by rw [hP, lookupRow_upsertPerf, if_pos rfl, hr]; rfl,
      by rw [hF, lookupRow_upsertFunda, if_pos rfl, hr]; rfl⟩

theorem upsert_column_scoped_witness :
    lookupRow "AAA" (update_performance_db false [⟨"AAA", 5, "p"⟩]
        (update_fundamentals_db false [⟨"AAA", some "Aco", 3, some 7, "f"⟩]
          [("BBB", blankRow)]))
      = some ⟨some "Aco", some 3, some 7, some "f", some 5, some "p"⟩ :=
  (upsert_column_scoped "AAA" 5 "p" (some "Aco") 3 (some 7) "f" [("BBB", blankRow)]
    (by decide)).1

theorem update_performance_db_nil (pf : Bool) (u : StockTable) :
    update_performance_db pf [] u = u := by
  cases pf <;> rfl

theorem update_fundamentals_db_nil (ff : Bool) (u : StockTable) :
    update_fundamentals_db ff [] u = u := rfl

theorem run_etl_success (sp : List ConstituentRecord)
    (dl : List String → BatchDownload) (inf : String → Option TickerInfo)
    (tP tF : String) (pf ff : Bool) (db : DB) (hsp : sp ≠ []) :
    run_etl true sp dl inf tP tF pf ff db
      = ({ update_sp500_list sp (create_tables db) with
           stock := update_fundamentals_db ff
             (get_fundamental_data_yfinance inf (sp.map (·.symbol)) tF)
             (update_performance_db pf
               (get_performance_data dl (sp.map (·.symbol)) tP) db.stock) }, true) := by
  have h1 : sp.isEmpty = false := by simp [hsp]
  have hperf : ∀ (recs : List PerfRecord) (d : DB),
      (if recs.isEmpty then d else { d with stock := update_performance_db pf recs d.stock })
        = { d with stock := update_performance_db pf recs d.stock } := by
    intro recs d
    cases recs with
    | nil => rw [update_performance_db_nil]; rfl
    | cons r rs => rfl
  have hfunda : ∀ (recs : List FundaRecord) (d : DB),
      (if recs.isEmpty then d else { d with stock := update_fundamentals_db ff recs d.stock })
        = { d with stock := update_fundamentals_db ff recs d.stock } := by
    intro recs d
    cases recs with
    | nil => rw [update_fundamentals_db_nil]; rfl
    | cons g gs => rfl
  unfold run_etl
  simp only [Bool.not_true, Bool.false_eq_true, if_false, h1, hperf, hfunda]
  rfl

theorem get_performance_data_allfail (dl : List String → BatchDownload)
    (h : ∀ b, dl b = BatchDownload.fail) (symbols : List String) (today : String) :
    get_performance_data dl symbols today = [] := by
  have hstep : ∀ (cs : List (List String)) (acc : List PerfRecord),
      cs.foldl (perfBatchStep dl today) acc = acc := by
    intro cs
    induction cs with
    | nil => intro acc; rfl
    | cons b bs ih =>
      intro acc
      rw [List.foldl_cons, show perfBatchStep dl today acc b = acc by
        simp [perfBatchStep, h b]]
      exact ih acc
  simpa [get_performance_data] using hstep (chunks100 symbols) []

theorem get_fundamental_data_allfail (inf : String → Option TickerInfo)
    (h : ∀ a, inf a = none) (symbols : List String) (today : String) :
    get_fundamental_data_yfinance inf symbols today = [] := by
  simp [get_fundamental_data_yfinance, h]

theorem update_performance_db_fails (recs : List PerfRecord) (u : StockTable) :
    update_performance_db true recs u = u := rfl

/-- C5: in the orchestrated run only an empty constituent fetch is fatal - it
aborts before any table row changes; with a non-empty constituent list the run
always reports success, and a total performance-fetch failure, a performance
upsert failure, or a total fundamentals-fetch failure each leave the remaining
steps running exactly as they would alone. -/
theorem etl_only_constituent_fetch_fatal (sp : List ConstituentRecord)
    (dl : List String → BatchDownload) (inf : String → Option TickerInfo)
    (tP tF : String) (pf ff : Bool) (db : DB) :
    (sp = [] → run_etl true sp dl inf tP tF pf ff db = (create_tables db, false)
      ∧ (create_tables db).sp500 = db.sp500 ∧ (create_tables db).stock = db.stock) ∧
    (sp ≠ [] → (run_etl true sp dl inf tP tF pf ff db).2 = true) ∧
    ((∀ b, dl b = BatchDownload.fail) → sp ≠ [] →
      run_etl true sp dl inf tP tF pf ff db
        = ({ update_sp500_list sp (create_tables db) with
             stock := update_fundamentals_db ff
               (get_fundamental_data_yfinance inf (sp.map (·.symbol)) tF)
               db.stock }, true)) ∧
    (sp ≠ [] →
      run_etl true sp dl inf tP tF true ff db
        = ({ update_sp500_list sp (create_tables db) with
             stock := update_fundamentals_db ff
               (get_fundamental_data_yfinance inf (sp.map (·.symbol)) tF)
               db.stock }, true)) ∧
    ((∀ a, inf a = none) → sp ≠ [] →
      run_etl true sp dl inf tP tF pf ff db
        = ({ update_sp500_list sp (create_tables db) with
             stock := update_performance_db pf
               (get_performance_data dl (sp.map (·.symbol)) tP)
               db.stock }, true)) := by
  refine ⟨?_, ?_, ?_, ?_, ?_⟩
  · intro hsp
    subst hsp
    exact ⟨rfl, rfl, rfl⟩
  · intro hsp
    rw [run_etl_success sp dl inf tP tF pf ff db hsp]
  · intro hdl hsp
    rw [run_etl_success sp dl inf tP tF pf ff db hsp,
      get_performance_data_allfail dl hdl, update_performance_db_nil]
  · intro hsp
    rw [run_etl_success sp dl inf tP tF true ff db hsp, update_performance_db_fails]
  · intro hinf hsp
    rw [run_etl_success sp dl inf tP tF pf ff db hsp,
      get_fundamental_data_allfail inf hinf, update_fundamentals_db_nil]

theorem etl_only_constituent_fetch_fatal_witness :
    (run_etl true [] (fun _ => BatchDownload.fail) (fun _ => none) "p" "f" false false
        freshDB = (create_tables freshDB, false)
      ∧ (create_tables freshDB).sp500 = freshDB.sp500
      ∧ (create_tables freshDB).stock = freshDB.stock) ∧
    (run_etl true [⟨"AAA", "Aco", "Tech"⟩] (fun _ => BatchDownload.fail) (fun _ => none)
        "p" "f" false false freshDB).2 = true := by
  constructor
  · exact (etl_only_constituent_fetch_fatal [] (fun _ => BatchDownload.fail)
      (fun _ => none) "p" "f" false false freshDB).1 rfl
  · exact (etl_only_constituent_fetch_fatal [⟨"AAA", "Aco", "Tech"⟩]
      (fun _ => BatchDownload.fail) (fun _ => none) "p" "f" false false freshDB).2.1
      (by simp)

theorem mem_keysOf_update_performance_db (pf : Bool) (recs : List PerfRecord)
    (u : StockTable) (a : String) (h : a ∈ keysOf u) :
    a ∈ keysOf (update_performance_db pf recs u) := by
  cases pf with
  | true => exact h
  | false =>
    unfold update_performance_db
    simp only [Bool.false_eq_true, if_false]
    induction recs generalizing u with
    | nil => exact h
    | cons r rs ih =>
      rw [List.foldl_cons]
      exact ih _ (mem_keysOf_upsertPerf _ _ _ _ _ (Or.inl h))

theorem mem_keysOf_fundaFold (recs : List FundaRecord) (u : StockTable)
    (a : String) (h : a ∈ keysOf u) :
    a ∈ keysOf (recs.foldl
      (fun acc g =>
        upsertFundaRow g.symbol g.company g.marketCapB g.pe g.lastFundamentalsUpdate acc)
      u) := by
  induction recs generalizing u with
  | nil => exact h
  | cons g gs ih =>
    rw [List.foldl_cons]
    exact ih _ (mem_keysOf_upsertFunda _ _ _ _ _ _ _ (Or.inl h))

theorem mem_keysOf_update_fundamentals_db (ff : Bool) (recs : List FundaRecord)
    (u : StockTable) (a : String) (h : a ∈ keysOf u) :
    a ∈ keysOf (update_fundamentals_db ff recs u) := by
  unfold update_fundamentals_db
  by_cases he : recs.isEmpty
  · simpa [he] using h
  · cases ff with
    | true => simpa [he] using h
    | false =>
      simp only [he, Bool.false_eq_true, if_false]
      exact mem_keysOf_fundaFold recs u a h

/-- C9: no step of the pipeline deletes a `stock_data` row - both upserts only
insert or update and the orchestrator never removes metrics rows - so a symbol
dropped from the constituent set keeps its metrics row as an orphan that no
constituent row references. -/
theorem etl_never_deletes_metrics (connOk : Bool) (sp : List ConstituentRecord)
    (dl : List String → BatchDownload) (inf : String → Option TickerInfo)
    (tP tF : String) (pf ff : Bool) (db : DB) :
    (∀ s, s ∈ keysOf db.stock →
      s ∈ keysOf (run_etl connOk sp dl inf tP tF pf ff db).1.stock) ∧
    (sp ≠ [] → ∀ s, s ∈ keysOf db.stock → s ∉ sp.map (·.symbol) →
      s ∈ keysOf (run_etl true sp dl inf tP tF pf ff db).1.stock ∧
      s ∉ (run_etl true sp dl inf tP tF pf ff db).1.sp500.map (·.symbol)) := by
  have hmono : ∀ s, s ∈ keysOf db.stock →
      s ∈ keysOf (run_etl true sp dl inf tP tF pf ff db).1.stock := by
    intro s hs
    by_cases hsp : sp = []
    · subst hsp
      exact hs
    · rw [run_etl_success sp dl inf tP tF pf ff db hsp]
      exact mem_keysOf_update_fundamentals_db _ _ _ _
        (mem_keysOf_update_performance_db _ _ _ _ hs)
  refine ⟨?_, ?_⟩
  · cases connOk with
    | false => intro s hs; exact hs
    | true => exact hmono
  · intro hsp s hs hout
    refine ⟨hmono s hs, ?_⟩
    rw [run_etl_success sp dl inf tP tF pf ff db hsp]
    exact hout

theorem etl_never_deletes_metrics_witness :
    "OLD" ∈ keysOf (run_etl true [⟨"AAA", "Aco", "Tech"⟩]
      (fun _ => BatchDownload.fail) (fun _ => none) "p" "f" false false
      { freshDB with stock := [("OLD", blankRow)] }).1.stock ∧
    "OLD" ∉ (run_etl true [⟨"AAA", "Aco", "Tech"⟩]
      (fun _ => BatchDownload.fail) (fun _ => none) "p" "f" false false
      { freshDB with stock := [("OLD", blankRow)] }).1.sp500.map (·.symbol) :=
  (etl_never_deletes_metrics true [⟨"AAA", "Aco", "Tech"⟩]
    (fun _ => BatchDownload.fail) (fun _ => none) "p" "f" false false
    { freshDB with stock := [("OLD", blankRow)] }).2 (by simp) "OLD"
    (by simp [keysOf]) (by simp)

theorem stripTable_cons (s : String) (r : StockRow) (t : StockTable) :
    stripTable ((s, r) :: t) = (s, stripRow r) :: stripTable t := rfl

theorem keysS_stripTable (t : StockTable) : keysS (stripTable t) = keysOf t := by
  simp [keysS, keysOf, stripTable]

theorem sSetPerf_sSetPerf (y y' : ℚ) (r : SRow) :
    sSetPerf y (sSetPerf y' r) = sSetPerf y r := rfl

theorem sSetFunda_sSetFunda (c c' : Option String) (m m' : ℚ) (p p' : Option ℚ)
    (r : SRow) : sSetFunda c m p (sSetFunda c' m' p' r) = sSetFunda c m p r := rfl

theorem sSetPerf_sSetFunda (y : ℚ) (c : Option String) (m : ℚ) (p : Option ℚ)
    (r : SRow) : sSetPerf y (sSetFunda c m p r) = sSetFunda c m p (sSetPerf y r) := rfl

theorem strip_upsertPerf (sym : String) (y : ℚ) (ts : String) (t : StockTable) :
    stripTable (upsertPerfRow sym y ts t) = sUpsertPerf sym y (stripTable t) := by
  induction t with
  | nil => rfl
  | cons p t ih =>
    obtain ⟨s, r⟩ := p
    by_cases hs : s = sym
    · subst hs
      simp only [upsertPerfRow, if_pos rfl, stripTable_cons, sUpsertPerf]
      rfl
    · simp only [upsertPerfRow, if_neg hs, stripTable_cons, sUpsertPerf, ih]
      rfl

theorem strip_upsertFunda (sym : String) (c : Option String) (m : ℚ)
    (pv : Option ℚ) (ts : String) (t : StockTable) :
    stripTable (upsertFundaRow sym c m pv ts t)
      = sUpsertFunda sym c m pv (stripTable t) := by
  induction t with
  | nil => rfl
  | cons p t ih =>
    obtain ⟨s, r⟩ := p
    by_cases hs : s = sym
    · subst hs
      simp only [upsertFundaRow, if_pos rfl, stripTable_cons, sUpsertFunda]
      rfl
    · simp only [upsertFundaRow, if_neg hs, stripTable_cons, sUpsertFunda, ih]
      rfl

theorem strip_perfFold (recs : List PerfRecord) (t : StockTable) :
    stripTable (recs.foldl
      (fun acc r => upsertPerfRow r.symbol r.ytdReturn r.lastPerformanceUpdate acc) t)
      = sPerfFold (recs.map perfPair) (stripTable t) := by
  induction recs generalizing t with
  | nil => rfl
  | cons r rs ih =>
    rw [List.foldl_cons, ih, List.map_cons]
    rw [show sPerfFold (perfPair r :: rs.map perfPair) (stripTable t)
        = sPerfFold (rs.map perfPair) (sUpsertPerf r.symbol r.ytdReturn (stripTable t))
      from rfl, strip_upsertPerf]

theorem strip_update_performance_db (recs : List PerfRecord) (t : StockTable) :
    stripTable (update_performance_db false recs t)
      = sPerfFold (recs.map perfPair) (stripTable t) :=
  strip_perfFold recs t

theorem strip_fundaFold (recs : List FundaRecord) (t : StockTable) :
    stripTable (recs.foldl
      (fun acc g =>
        upsertFundaRow g.symbol g.company g.marketCapB g.pe g.lastFundamentalsUpdate acc) t)
      = sFundaFold (recs.map fundaTuple) (stripTable t) := by
  induction recs generalizing t with
  | nil => rfl
  | cons g gs ih =>
    rw [List.foldl_cons, ih, List.map_cons]
    rw [show sFundaFold (fundaTuple g :: gs.map fundaTuple) (stripTable t)
        = sFundaFold (gs.map fundaTuple)
            (sUpsertFunda g.symbol g.company g.marketCapB g.pe (stripTable t))
      from rfl, strip_upsertFunda]

theorem strip_update_fundamentals_db (recs : List FundaRecord) (t : StockTable) :
    stripTable (update_fundamentals_db false recs t)
      = sFundaFold (recs.map fundaTuple) (stripTable t) := by
  cases recs with
  | nil => rfl
  | cons g gs => exact strip_fundaFold (g :: gs) t

theorem update_fundamentals_db_fails (recs : List FundaRecord) (u : StockTable) :
    update_fundamentals_db true recs u = u := by
  unfold update_fundamentals_db
  by_cases he : recs.isEmpty <;> simp [he]

theorem lookupS_sUpsertPerf (sym : String) (y : ℚ) (a : String) (x : STable) :
    lookupS a (sUpsertPerf sym y x)
      = if a = sym then some (sSetPerf y ((lookupS sym x).getD sBlank))
        else lookupS a x := by
  induction x with
  | nil =>
    by_cases h : a = sym
    · subst h; simp [sUpsertPerf, lookupS]
    · have h2 : ¬ sym = a := fun hh => h hh.symm
      simp [sUpsertPerf, lookupS, h, h2]
  | cons p x ih =>
    obtain ⟨s, r⟩ := p
    by_cases hs : s = sym
    · subst hs
      by_cases ha : s = a
      · subst ha; simp [sUpsertPerf, lookupS]
      · have ha2 : ¬ a = s := fun hh => ha hh.symm
        simp [sUpsertPerf, lookupS, ha, ha2]
    · by_cases hsa : s = a
      · subst hsa
        have hs2 : ¬ s = sym := hs
        simp [sUpsertPerf, lookupS, hs2]
      · simp [sUpsertPerf, lookupS, hs, hsa, ih]

theorem lookupS_sUpsertFunda (sym : String) (c : Option String) (m : ℚ)
    (pv : Option ℚ) (a : String) (x : STable) :
    lookupS a (sUpsertFunda sym c m pv x)
      = if a = sym then some (sSetFunda c m pv ((lookupS sym x).getD sBlank))
        else lookupS a x := by
  induction x with
  | nil =>
    by_cases h : a = sym
    · subst h; simp [sUpsertFunda, lookupS]
    · have h2 : ¬ sym = a := fun hh => h hh.symm
      simp [sUpsertFunda, lookupS, h, h2]
  | cons p x ih =>
    obtain ⟨s, r⟩ := p
    by_cases hs : s = sym
    · subst hs
      by_cases ha : s = a
      · subst ha; simp [sUpsertFunda, lookupS]
      · have ha2 : ¬ a = s := fun hh => ha hh.symm
        simp [sUpsertFunda, lookupS, ha, ha2]
    · by_cases hsa : s = a
      · subst hsa
        have hs2 : ¬ s = sym := hs
        simp [sUpsertFunda, lookupS, hs2]
      · simp [sUpsertFunda, lookupS, hs, hsa, ih]

theorem keysS_cons (s : String) (r : SRow) (x : STable) :
    keysS ((s, r) :: x) = s :: keysS x := rfl

theorem keysS_sUpsertPerf (sym : String) (y : ℚ) (x : STable) :
    keysS (sUpsertPerf sym y x)
      = if sym ∈ keysS x then keysS x else keysS x ++ [sym] := by
  induction x with
  | nil => simp [sUpsertPerf, keysS]
  | cons p x ih =>
    obtain ⟨s, r⟩ := p
    by_cases hs : s = sym
    · subst hs
      simp only [sUpsertPerf, if_pos rfl, keysS_cons]
      simp [keysS_cons]
    · have hns : ¬ sym = s := fun hh => hs hh.symm
      simp only [sUpsertPerf, if_neg hs, keysS_cons, ih]
      by_cases hm : sym ∈ keysS x
      · simp [hm, hns]
      · simp [hm, hns]

theorem keysS_sUpsertFunda (sym : String) (c : Option String) (m : ℚ)
    (pv : Option ℚ) (x : STable) :
    keysS (sUpsertFunda sym c m pv x)
      = if sym ∈ keysS x then keysS x else keysS x ++ [sym] := by
  induction x with
  | nil => simp [sUpsertFunda, keysS]
  | cons p x ih =>
    obtain ⟨s, r⟩ := p
    by_cases hs : s = sym
    · subst hs
      simp only [sUpsertFunda, if_pos rfl, keysS_cons]
      simp [keysS_cons]
    · have hns : ¬ sym = s := fun hh => hs hh.symm
      simp only [sUpsertFunda, if_neg hs, keysS_cons, ih]
      by_cases hm : sym ∈ keysS x
      · simp [hm, hns]
      · simp [hm, hns]

theorem mem_keysS_sUpsertPerf (sym : String) (y : ℚ) (a : String) (x : STable)
    (h : a ∈ keysS x ∨ a = sym) : a ∈ keysS (sUpsertPerf sym y x) := by
  rw [keysS_sUpsertPerf]
  by_cases hm : sym ∈ keysS x
  · rcases h with h | h
    · simp [hm, h]
    · simp [hm, h ▸ hm]
  · rcases h with h | h
    · simp [hm, h]
    · simp [hm, h]

theorem mem_keysS_sUpsertFunda (sym : String) (c : Option String) (m : ℚ)
    (pv : Option ℚ) (a : String) (x : STable) (h : a ∈ keysS x ∨ a = sym) :
    a ∈ keysS (sUpsertFunda sym c m pv x) := by
  rw [keysS_sUpsertFunda]
  by_cases hm : sym ∈ keysS x
  · rcases h with h | h
    · simp [hm, h]
    · simp [hm, h ▸ hm]
  · rcases h with h | h
    · simp [hm, h]
    · simp [hm, h]

theorem nodup_keysS_sUpsertPerf (sym : String) (y : ℚ) (x : STable)
    (h : (keysS x).Nodup) : (keysS (sUpsertPerf sym y x)).Nodup := by
  rw [keysS_sUpsertPerf]
  by_cases hm : sym ∈ keysS x
  · simpa [hm] using h
  · simp only [hm, if_false]
    rw [List.nodup_append]
    refine ⟨h, by simp, ?_⟩
    intro a ha hb
    simp only [List.mem_singleton] at hb
    subst hb
    exact hm ha

theorem nodup_keysS_sUpsertFunda (sym : String) (c : Option String) (m : ℚ)
    (pv : Option ℚ) (x : STable) (h : (keysS x).Nodup) :
    (keysS (sUpsertFunda sym c m pv x)).Nodup := by
  rw [keysS_sUpsertFunda]
  by_cases hm : sym ∈ keysS x
  · simpa [hm] using h
  · simp only [hm, if_false]
    rw [List.nodup_append]
    refine ⟨h, by simp, ?_⟩
    intro a ha hb
    simp only [List.mem_singleton] at hb
    subst hb
    exact hm ha

theorem lookupS_eq_none (a : String) (x : STable) (h : a ∉ keysS x) :
    lookupS a x = none := by
  induction x with
  | nil => rfl
  | cons p x ih =>
    obtain ⟨s, r⟩ := p
    rw [keysS_cons] at h
    simp only [List.mem_cons, not_or] at h
    have hsa : ¬ s = a := fun hh => h.1 hh.symm
    simp [lookupS, hsa, ih h.2]

theorem stable_ext (x x' : STable) (hnd : (keysS x).Nodup)
    (hk : keysS x = keysS x') (hl : ∀ s, lookupS s x = lookupS s x') : x = x' := by
  induction x generalizing x' with
  | nil =>
    cases x' with
    | nil => rfl
    | cons p x' => exact absurd hk (by simp [keysS])
  | cons p x ih =>
    obtain ⟨s, r⟩ := p
    cases x' with
    | nil => exact absurd hk (by simp [keysS])
    | cons q x' =>
      obtain ⟨s', r'⟩ := q
      rw [keysS_cons, keysS_cons] at hk
      injection hk with hs hkt
      subst hs
      have hr : r = r' := by
        have h2 := hl s
        simpa [lookupS] using h2
      subst hr
      rw [keysS_cons] at hnd
      have hnd2 := List.Nodup.of_cons hnd
      have hsx : s ∉ keysS x := (List.nodup_cons.mp hnd).1
      have hsx2 : s ∉ keysS x' := hkt ▸ hsx
      have hlt : ∀ a, lookupS a x = lookupS a x' := by
        intro a
        by_cases ha : a = s
        · subst ha
          rw [lookupS_eq_none a x hsx, lookupS_eq_none a x' hsx2]
        · have h2 := hl a
          have hsa : ¬ s = a := fun hh => ha hh.symm
          simpa [lookupS, hsa] using h2
      rw [ih x' hnd2 hkt hlt]

theorem lastPerfVal_foldl_init (sym : String) (ps : List (String × ℚ))
    (a0 : Option ℚ) :
    ps.foldl (fun a p => if p.1 = sym then some p.2 else a) a0
      = match lastPerfVal ps sym with
        | none => a0
        | some v => some v := by
  induction ps generalizing a0 with
  | nil => rfl
  | cons p ps ih =>
    rw [List.foldl_cons]
    rw [show lastPerfVal (p :: ps) sym
        = ps.foldl (fun a q => if q.1 = sym then some q.2 else a)
            (if p.1 = sym then some p.2 else none) from rfl]
    rw [ih, ih]
    by_cases hp : p.1 = sym
    · simp only [hp, if_pos rfl]
      cases lastPerfVal ps sym <;> rfl
    · simp only [if_neg hp]
      cases lastPerfVal ps sym <;> rfl

theorem lastFundaVal_foldl_init (sym : String)
    (gs : List (String × Option String × ℚ × Option ℚ))
    (a0 : Option (Option String × ℚ × Option ℚ)) :
    gs.foldl (fun a g => if g.1 = sym then some g.2 else a) a0
      = match lastFundaVal gs sym with
        | none => a0
        | some v => some v := by
  induction gs generalizing a0 with
  | nil => rfl
  | cons g gs ih =>
    rw [List.foldl_cons]
    rw [show lastFundaVal (g :: gs) sym
        = gs.foldl (fun a q => if q.1 = sym then some q.2 else a)
            (if g.1 = sym then some g.2 else none) from rfl]
    rw [ih, ih]
    by_cases hg : g.1 = sym
    · simp only [hg, if_pos rfl]
      cases lastFundaVal gs sym <;> rfl
    · simp only [if_neg hg]
      cases lastFundaVal gs sym <;> rfl

theorem lookupS_sPerfFold (sym : String) (ps : List (String × ℚ)) (x : STable) :
    lookupS sym (sPerfFold ps x)
      = applyPerfOpt (lastPerfVal ps sym) (lookupS sym x) := by
  induction ps generalizing x with
  | nil => rfl
  | cons p ps ih =>
    rw [show sPerfFold (p :: ps) x = sPerfFold ps (sUpsertPerf p.1 p.2 x) from rfl]
    rw [ih, lookupS_sUpsertPerf]
    rw [show lastPerfVal (p :: ps) sym
        = ps.foldl (fun a q => if q.1 = sym then some q.2 else a)
            (if p.1 = sym then some p.2 else none) from rfl]
    rw [lastPerfVal_foldl_init]
    by_cases hp : p.1 = sym
    · rw [if_pos hp.symm, if_pos hp, hp]
      cases hv : lastPerfVal ps sym with
      | none => rfl
      | some v => simp [applyPerfOpt, sSetPerf_sSetPerf]
    · have hp2 : ¬ sym = p.1 := fun hh => hp hh.symm
      rw [if_neg hp2, if_neg hp]
      cases hv : lastPerfVal ps sym <;> rfl

theorem lookupS_sFundaFold (sym : String)
    (gs : List (String × Option String × ℚ × Option ℚ)) (x : STable) :
    lookupS sym (sFundaFold gs x)
      = applyFundaOpt (lastFundaVal gs sym) (lookupS sym x) := by
  induction gs generalizing x with
  | nil => rfl
  | cons g gs ih =>
    rw [show sFundaFold (g :: gs) x
        = sFundaFold gs (sUpsertFunda g.1 g.2.1 g.2.2.1 g.2.2.2 x) from rfl]
    rw [ih, lookupS_sUpsertFunda]
    rw [show lastFundaVal (g :: gs) sym
        = gs.foldl (fun a q => if q.1 = sym then some q.2 else a)
            (if g.1 = sym then some g.2 else none) from rfl]
    rw [lastFundaVal_foldl_init]
    by_cases hg : g.1 = sym
    · rw [if_pos hg.symm, if_pos hg, hg]
      cases hv : lastFundaVal gs sym with
      | none => rfl
      | some v => simp [applyFundaOpt, sSetFunda_sSetFunda]
    · have hg2 : ¬ sym = g.1 := fun hh => hg hh.symm
      rw [if_neg hg2, if_neg hg]
      cases hv : lastFundaVal gs sym <;> rfl

theorem mem_keysS_sPerfFold (a : String) (ps : List (String × ℚ)) (x : STable)
    (h : a ∈ keysS x) : a ∈ keysS (sPerfFold ps x) := by
  induction ps generalizing x with
  | nil => exact h
  | cons p ps ih =>
    exact ih _ (mem_keysS_sUpsertPerf p.1 p.2 a x (Or.inl h))

theorem mem_keysS_sFundaFold (a : String)
    (gs : List (String × Option String × ℚ × Option ℚ)) (x : STable)
    (h : a ∈ keysS x) : a ∈ keysS (sFundaFold gs x) := by
  induction gs generalizing x with
  | nil => exact h
  | cons g gs ih =>
    exact ih _ (mem_keysS_sUpsertFunda g.1 g.2.1 g.2.2.1 g.2.2.2 a x (Or.inl h))

theorem mem_keysS_sPerfFold_self (ps : List (String × ℚ)) (x : STable)
    (p : String × ℚ) (hp : p ∈ ps) : p.1 ∈ keysS (sPerfFold ps x) := by
  induction ps generalizing x with
  | nil => exact absurd hp (by simp)
  | cons q qs ih =>
    rcases List.mem_cons.mp hp with h | h
    · subst h
      exact mem_keysS_sPerfFold p.1 qs _
        (mem_keysS_sUpsertPerf p.1 p.2 p.1 x (Or.inr rfl))
    · exact ih _ h

theorem mem_keysS_sFundaFold_self
    (gs : List (String × Option String × ℚ × Option ℚ)) (x : STable)
    (g : String × Option String × ℚ × Option ℚ) (hg : g ∈ gs) :
    g.1 ∈ keysS (sFundaFold gs x) := by
  induction gs generalizing x with
  | nil => exact absurd hg (by simp)
  | cons q qs ih =>
    rcases List.mem_cons.mp hg with h | h
    · subst h
      exact mem_keysS_sFundaFold g.1 qs _
        (mem_keysS_sUpsertFunda g.1 g.2.1 g.2.2.1 g.2.2.2 g.1 x (Or.inr rfl))
    · exact ih _ h

theorem keysS_sPerfFold_of_mem (ps : List (String × ℚ)) (x : STable)
    (h : ∀ p ∈ ps, p.1 ∈ keysS x) : keysS (sPerfFold ps x) = keysS x := by
  induction ps generalizing x with
  | nil => rfl
  | cons p ps ih =>
    rw [show sPerfFold (p :: ps) x = sPerfFold ps (sUpsertPerf p.1 p.2 x) from rfl]
    have hk : keysS (sUpsertPerf p.1 p.2 x) = keysS x := by
      rw [keysS_sUpsertPerf, if_pos (h p (by simp))]
    rw [ih _ (fun q hq => hk ▸ h q (by simp [hq])), hk]

theorem keysS_sFundaFold_of_mem (gs : List (String × Option String × ℚ × Option ℚ))
    (x : STable) (h : ∀ g ∈ gs, g.1 ∈ keysS x) :
    keysS (sFundaFold gs x) = keysS x := by
  induction gs generalizing x with
  | nil => rfl
  | cons g gs ih =>
    rw [show sFundaFold (g :: gs) x
        = sFundaFold gs (sUpsertFunda g.1 g.2.1 g.2.2.1 g.2.2.2 x) from rfl]
    have hk : keysS (sUpsertFunda g.1 g.2.1 g.2.2.1 g.2.2.2 x) = keysS x := by
      rw [keysS_sUpsertFunda, if_pos (h g (by simp))]
    rw [ih _ (fun q hq => hk ▸ h q (by simp [hq])), hk]

theorem nodup_keysS_sPerfFold (ps : List (String × ℚ)) (x : STable)
    (h : (keysS x).Nodup) : (keysS (sPerfFold ps x)).Nodup := by
  induction ps generalizing x with
  | nil => exact h
  | cons p ps ih =>
    exact ih _ (nodup_keysS_sUpsertPerf p.1 p.2 x h)

theorem nodup_keysS_sFundaFold (gs : List (String × Option String × ℚ × Option ℚ))
    (x : STable) (h : (keysS x).Nodup) : (keysS (sFundaFold gs x)).Nodup := by
  induction gs generalizing x with
  | nil => exact h
  | cons g gs ih =>
    exact ih _ (nodup_keysS_sUpsertFunda g.1 g.2.1 g.2.2.1 g.2.2.2 x h)

theorem applyFP_absorb (fv : Option (Option String × ℚ × Option ℚ))
    (pv : Option ℚ) (o : Option SRow) :
    applyFundaOpt fv (applyPerfOpt pv (applyFundaOpt fv (applyPerfOpt pv o)))
      = applyFundaOpt fv (applyPerfOpt pv o) := by
  cases fv <;> cases pv <;> cases o <;> rfl

theorem sFold_absorb (ps : List (String × ℚ))
    (gs : List (String × Option String × ℚ × Option ℚ)) (x : STable)
    (hnd : (keysS x).Nodup) :
    sFundaFold gs (sPerfFold ps (sFundaFold gs (sPerfFold ps x)))
      = sFundaFold gs (sPerfFold ps x) := by
  have hnd1 : (keysS (sFundaFold gs (sPerfFold ps x))).Nodup :=
    nodup_keysS_sFundaFold gs _ (nodup_keysS_sPerfFold ps x hnd)
  have hpmem : ∀ p ∈ ps, p.1 ∈ keysS (sFundaFold gs (sPerfFold ps x)) :=
    fun p hp => mem_keysS_sFundaFold p.1 gs _ (mem_keysS_sPerfFold_self ps x p hp)
  have hk1 : keysS (sPerfFold ps (sFundaFold gs (sPerfFold ps x)))
      = keysS (sFundaFold gs (sPerfFold ps x)) :=
    keysS_sPerfFold_of_mem ps _ hpmem
  have hgmem : ∀ g ∈ gs, g.1 ∈ keysS (sPerfFold ps (sFundaFold gs (sPerfFold ps x))) :=
    fun g hg => by
      rw [hk1]
      exact mem_keysS_sFundaFold_self gs _ g hg
  have hk2 : keysS (sFundaFold gs (sPerfFold ps (sFundaFold gs (sPerfFold ps x))))
      = keysS (sPerfFold ps (sFundaFold gs (sPerfFold ps x))) :=
    keysS_sFundaFold_of_mem gs _ hgmem
  have hndL : (keysS (sFundaFold gs (sPerfFold ps (sFundaFold gs (sPerfFold ps x))))).Nodup :=
    nodup_keysS_sFundaFold gs _ (nodup_keysS_sPerfFold ps _ hnd1)
  apply stable_ext _ _ hndL (by rw [hk2, hk1])
  intro s
  rw [lookupS_sFundaFold, lookupS_sPerfFold, lookupS_sFundaFold, lookupS_sPerfFold]
  exact applyFP_absorb (lastFundaVal gs s) (lastPerfVal ps s) (lookupS s x)

theorem processPerfSymbol_retime (data : List (String × List ℚ)) (sym : String)
    (t1 t2 : String) :
    processPerfSymbol data sym t2
      = (processPerfSymbol data sym t1).map
          (fun r => ⟨r.symbol, r.ytdReturn, t2⟩) := by
  simp only [processPerfSymbol]
  cases lookupPrices sym data with
  | none => rfl
  | some prices =>
    by_cases he : prices.isEmpty
    · simp [he]
    · by_cases h0 : prices.head?.getD 0 = 0
      · simp [he, h0]
      · simp [he, h0]

theorem perfSpecBatch_retime (dl : List String → BatchDownload) (t1 t2 : String)
    (b : List String) :
    perfSpecBatch dl t2 b
      = (perfSpecBatch dl t1 b).map (fun r => ⟨r.symbol, r.ytdReturn, t2⟩) := by
  unfold perfSpecBatch
  cases dl b with
  | fail => rfl
  | ok data =>
    by_cases hd : data.isEmpty
    · simp [hd]
    · simp only [hd, Bool.false_eq_true, if_false]
      rw [List.map_filterMap]
      congr 1
      funext sym
      exact processPerfSymbol_retime data sym t1 t2

theorem perf_spec_retime (dl : List String → BatchDownload) (t1 t2 : String)
    (cs : List (List String)) :
    get_performance_data_spec dl t2 cs
      = (get_performance_data_spec dl t1 cs).map
          (fun r => ⟨r.symbol, r.ytdReturn, t2⟩) := by
  induction cs with
  | nil => rfl
  | cons b bs ih =>
    rw [get_performance_data_spec, get_performance_data_spec, List.map_append,
      ih, perfSpecBatch_retime dl t1 t2 b]

theorem get_performance_data_retime (dl : List String → BatchDownload)
    (symbols : List String) (t1 t2 : String) :
    get_performance_data dl symbols t2
      = (get_performance_data dl symbols t1).map
          (fun r => ⟨r.symbol, r.ytdReturn, t2⟩) := by
  rw [perf_impl_eq_spec dl symbols t2, perf_impl_eq_spec dl symbols t1,
    perf_spec_retime]

theorem fetchFundaSymbol_retime (sym : String) (bag : TickerInfo) (t1 t2 : String) :
    fetchFundaSymbol sym bag t2
      = (fetchFundaSymbol sym bag t1).map
          (fun g => ⟨g.symbol, g.company, g.marketCapB, g.pe, t2⟩) := by
  simp only [fetchFundaSymbol]
  cases h : pvalTruthy (bag.marketCap.getD (PVal.num 0)) with
  | false => simp [h]
  | true =>
    cases hf : pvalToFloat (bag.marketCap.getD (PVal.num 0)) with
    | none => simp [h, hf]
    | some q => simp [h, hf]

theorem get_fundamental_data_retime (inf : String → Option TickerInfo)
    (symbols : List String) (t1 t2 : String) :
    get_fundamental_data_yfinance inf symbols t2
      = (get_fundamental_data_yfinance inf symbols t1).map
          (fun g => ⟨g.symbol, g.company, g.marketCapB, g.pe, t2⟩) := by
  unfold get_fundamental_data_yfinance
  rw [List.map_filterMap]
  congr 1
  funext sym
  cases inf sym with
  | none => rfl
  | some bag => exact fetchFundaSymbol_retime sym bag t1 t2

theorem perf_pairs_retime (dl : List String → BatchDownload)
    (symbols : List String) (t1 t2 : String) :
    (get_performance_data dl symbols t2).map perfPair
      = (get_performance_data dl symbols t1).map perfPair := by
  rw [get_performance_data_retime dl symbols t1 t2, List.map_map]
  rfl

theorem funda_tuples_retime (inf : String → Option TickerInfo)
    (symbols : List String) (t1 t2 : String) :
    (get_fundamental_data_yfinance inf symbols t2).map fundaTuple
      = (get_fundamental_data_yfinance inf symbols t1).map fundaTuple := by
  rw [get_fundamental_data_retime inf symbols t1 t2, List.map_map]
  rfl

/-- C2: running the full pipeline twice with identical upstream data (same
constituent list, same download and info oracles) leaves the store with the
same constituent rows and, for `stock_data`, rows that agree field-for-field
outside the two last-update timestamp columns; the success status also
agrees. -/
theorem etl_idempotent (sp : List ConstituentRecord)
    (dl : List String → BatchDownload) (inf : String → Option TickerInfo)
    (tP1 tF1 tP2 tF2 : String) (pf ff : Bool) (db : DB)
    (hnd : (keysOf db.stock).Nodup) :
    (run_etl true sp dl inf tP2 tF2 pf ff
        (run_etl true sp dl inf tP1 tF1 pf ff db).1).1.sp500
      = (run_etl true sp dl inf tP1 tF1 pf ff db).1.sp500 ∧
    stripTable (run_etl true sp dl inf tP2 tF2 pf ff
        (run_etl true sp dl inf tP1 tF1 pf ff db).1).1.stock
      = stripTable (run_etl true sp dl inf tP1 tF1 pf ff db).1.stock ∧
    (run_etl true sp dl inf tP2 tF2 pf ff
        (run_etl true sp dl inf tP1 tF1 pf ff db).1).2
      = (run_etl true sp dl inf tP1 tF1 pf ff db).2 := by
  by_cases hsp : sp = []
  · subst hsp
    exact ⟨rfl, rfl, rfl⟩
  · rw [run_etl_success sp dl inf tP1 tF1 pf ff db hsp]
    rw [run_etl_success sp dl inf tP2 tF2 pf ff _ hsp]
    refine ⟨rfl, ?_, rfl⟩
    have hnds : (keysS (stripTable db.stock)).Nodup := by
      rw [keysS_stripTable]; exact hnd
    have hP : (get_performance_data dl (sp.map (·.symbol)) tP2).map perfPair
        = (get_performance_data dl (sp.map (·.symbol)) tP1).map perfPair :=
      perf_pairs_retime dl (sp.map (·.symbol)) tP1 tP2
    have hG : (get_fundamental_data_yfinance inf (sp.map (·.symbol)) tF2).map fundaTuple
        = (get_fundamental_data_yfinance inf (sp.map (·.symbol)) tF1).map fundaTuple :=
      funda_tuples_retime inf (sp.map (·.symbol)) tF1 tF2
    cases pf with
    | false =>
      cases ff with
      | false =>
        rw [strip_update_fundamentals_db, strip_update_performance_db,
          strip_update_fundamentals_db, strip_update_performance_db, hP, hG]
        exact sFold_absorb _ _ _ hnds
      | true =>
        rw [update_fundamentals_db_fails, update_fundamentals_db_fails,
          strip_update_performance_db, strip_update_performance_db, hP]
        exact sFold_absorb ((get_performance_data dl (sp.map (·.symbol)) tP1).map perfPair)
          [] _ hnds
    | true =>
      cases ff with
      | false =>
        rw [update_performance_db_fails, update_performance_db_fails,
          strip_update_fundamentals_db, strip_update_fundamentals_db, hG]
        exact sFold_absorb []
          ((get_fundamental_data_yfinance inf (sp.map (·.symbol)) tF1).map fundaTuple)
          _ hnds
      | true =>
        rw [update_performance_db_fails, update_performance_db_fails,
          update_fundamentals_db_fails, update_fundamentals_db_fails]

theorem etl_idempotent_witness :
    (run_etl true [⟨"AAA", "Aco", "Tech"⟩]
        (fun _ => BatchDownload.ok [("AAA", [100, 110, 90])])
        (fun _ => some ⟨some "X", some (.num 2000000000), some (.num 5), none⟩)
        "p2" "f2" false false
        (run_etl true [⟨"AAA", "Aco", "Tech"⟩]
          (fun _ => BatchDownload.ok [("AAA", [100, 110, 90])])
          (fun _ => some ⟨some "X", some (.num 2000000000), some (.num 5), none⟩)
          "p1" "f1" false false freshDB).1).1.sp500
      = (run_etl true [⟨"AAA", "Aco", "Tech"⟩]
          (fun _ => BatchDownload.ok [("AAA", [100, 110, 90])])
          (fun _ => some ⟨some "X", some (.num 2000000000), some (.num 5), none⟩)
          "p1" "f1" false false freshDB).1.sp500 ∧
    stripTable (run_etl true [⟨"AAA", "Aco", "Tech"⟩]
        (fun _ => BatchDownload.ok [("AAA", [100, 110, 90])])
        (fun _ => some ⟨some "X", some (.num 2000000000), some (.num 5), none⟩)
        "p2" "f2" false false
        (run_etl true [⟨"AAA", "Aco", "Tech"⟩]
          (fun _ => BatchDownload.ok [("AAA", [100, 110, 90])])
          (fun _ => some ⟨some "X", some (.num 2000000000), some (.num 5), none⟩)
          "p1" "f1" false false freshDB).1).1.stock
      = stripTable (run_etl true [⟨"AAA", "Aco", "Tech"⟩]
          (fun _ => BatchDownload.ok [("AAA", [100, 110, 90])])
          (fun _ => some ⟨some "X", some (.num 2000000000), some (.num 5), none⟩)
          "p1" "f1" false false freshDB).1.stock ∧
    (run_etl true [⟨"AAA", "Aco", "Tech"⟩]
        (fun _ => BatchDownload.ok [("AAA", [100, 110, 90])])
        (fun _ => some ⟨some "X", some (.num 2000000000), some (.num 5), none⟩)
        "p2" "f2" false false
        (run_etl true [⟨"AAA", "Aco", "Tech"⟩]
          (fun _ => BatchDownload.ok [("AAA", [100, 110, 90])])
          (fun _ => some ⟨some "X", some (.num 2000000000), some (.num 5), none⟩)
          "p1" "f1" false false freshDB).1).2
      = (run_etl true [⟨"AAA", "Aco", "Tech"⟩]
          (fun _ => BatchDownload.ok [("AAA", [100, 110, 90])])
          (fun _ => some ⟨some "X", some (.num 2000000000), some (.num 5), none⟩)
          "p1" "f1" false false freshDB).2 :=
  etl_idempotent [⟨"AAA", "Aco", "Tech"⟩]
    (fun _ => BatchDownload.ok [("AAA", [100, 110, 90])])
    (fun _ => some ⟨some "X", some (.num 2000000000), some (.num 5), none⟩)
    "p1" "f1" "p2" "f2" false false freshDB (by decide)
